import Mathlib

/-!
Shallow embedding of the data-aggregation logic of the openwork-dashboard
repository.  Two near-duplicate implementations exist: `src/src/App.tsx`
(the Tremor variant) and `src/unnamed/part_000` (the recharts variant).
Pure view-model computations are translated as Lean functions; JS `Date`
and `toLocaleDateString` behaviour is a parameter of the functions that
use it (they are external library calls); JS `NaN` results are modelled
with `Option`.  The component state and the poll cycle are modelled as a
state type with explicit transition functions.
-/

namespace Openwork

/-- Dashboard statistics returned by `/api/dashboard` (both variants declare
the same `DashboardStats` interface; JSON numbers here are counts, modelled
as integers). -/
structure DashboardStats where
  totalAgents : Int
  totalJobs : Int
  openJobs : Int
  claimedJobs : Int
  completedJobs : Int
  totalRewardsPaid : Int
  totalRewardsEscrowed : Int
  deriving Repr, DecidableEq

/-- The `Agent` record of both variants. -/
structure Agent where
  id : String
  name : String
  jobs_completed : Int
  jobs_posted : Int
  reputation : Int
  onChainBalance : String
  created_at : String
  specialties : List String
  deriving Repr, DecidableEq

/-- The `Job` record of both variants. -/
structure Job where
  id : String
  title : String
  reward : Int
  status : String
  type : String
  created_at : String
  deriving Repr, DecidableEq

/-- The `ActivityItem` record of both variants. -/
structure ActivityItem where
  id : String
  type : String
  agent_name : String
  job_title : Option String
  timestamp : String
  deriving Repr, DecidableEq

/-- The `tickFormatter` helper of App.tsx: an empty label stays empty, a label
longer than `max` characters is cut to `max` characters with an ellipsis
appended, anything else is returned unchanged. -/
def tickFormatter (label : String) (max : Nat) : String :=
  if label = "" then ""
  else if label.length > max then (label.take max).push '…'
  else label

/-- JS `s || d` specialised to strings: the empty string is the only falsy
string, so it is replaced by the default `d`. -/
def jsOr (s d : String) : String := if s = "" then d else s

/-- JS `parseInt(s, 10)`: skip leading whitespace, read an optional sign, then
the longest leading run of decimal digits.  `none` models the `NaN` result
produced when no digit is found (e.g. on `"abc"` or `""`). -/
def jsParseInt (s : String) : Option Int :=
  let ws := s.data.dropWhile (fun c => c = ' ' || c = '\t' || c = '\n' || c = '\r')
  let signed : Int × List Char :=
    match ws with
    | '-' :: cs => (-1, cs)
    | '+' :: cs => (1, cs)
    | cs => (1, cs)
  let digits := signed.2.takeWhile Char.isDigit
  if digits = [] then none
  else some (signed.1 * digits.foldl (fun acc c => acc * 10 + ((c.toNat : Int) - 48)) 0)

/-! ### Reward histogram (`rewardBuckets`, identical in both variants) -/

/-- The six bucket counters of `rewardBuckets`, in the order they are declared
in the source (`'0'`, `'1-10K'`, `'10K-50K'`, `'50K-100K'`, `'100K-500K'`,
`'500K+'`). -/
structure RewardCounts where
  b0 : Nat
  b1 : Nat
  b2 : Nat
  b3 : Nat
  b4 : Nat
  b5 : Nat
  deriving Repr, DecidableEq

/-- One step of the `jobs.forEach` loop in `rewardBuckets`: the if/else-if
chain classifying a reward into exactly one bucket. -/
def bumpReward (c : RewardCounts) (reward : Int) : RewardCounts :=
  if reward = 0 then { c with b0 := c.b0 + 1 }
  else if reward ≤ 10000 then { c with b1 := c.b1 + 1 }
  else if reward ≤ 50000 then { c with b2 := c.b2 + 1 }
  else if reward ≤ 100000 then { c with b3 := c.b3 + 1 }
  else if reward ≤ 500000 then { c with b4 := c.b4 + 1 }
  else { c with b5 := c.b5 + 1 }

/-- The `rewardBuckets` computation (App.tsx lines 333-356): count every job
into one of six fixed buckets, then render the fixed bucket list (App.tsx maps
the range label through `tickFormatter(range, 10)`; the recharts variant
renders the same labels untouched, and every label here is at most 10
characters, so both variants produce the same labels). -/
def rewardBuckets (jobs : List Job) : List (String × Nat) :=
  let c := jobs.foldl (fun acc j => bumpReward acc j.reward) ⟨0, 0, 0, 0, 0, 0⟩
  [(tickFormatter "0" 10, c.b0),
   (tickFormatter "1-10K" 10, c.b1),
   (tickFormatter "10K-50K" 10, c.b2),
   (tickFormatter "50K-100K" 10, c.b3),
   (tickFormatter "100K-500K" 10, c.b4),
   (tickFormatter "500K+" 10, c.b5)]

/-! ### Agents over time

App.tsx (lines 267-296) keys each agent's creation date by
`toISOString().slice(0, 10)` after discarding dates whose `getTime()` is
`NaN`; the recharts variant (part_000 lines 142-157) keys by
`toLocaleDateString('en-US', {month:'short', day:'numeric'})` without any
validity check.  The JS `Date` library calls are parameters of the Lean
functions. -/

/-- One entry of the `buckets` map of App.tsx `agentsOverTime`: the ISO day
key, the locale label recorded on first insertion, and the count. -/
structure DayBucket where
  key : String
  label : String
  count : Nat
  deriving Repr, DecidableEq

/-- Inserting one agent's day into the insertion-ordered bucket list (the JS
`Map` of App.tsx preserves insertion order): an existing key has its count
bumped, a new key is appended with count 1 and the given label. -/
def bumpDay (acc : List DayBucket) (key label : String) : List DayBucket :=
  match acc with
  | [] => [⟨key, label, 1⟩]
  | e :: rest =>
    if e.key = key then ⟨e.key, e.label, e.count + 1⟩ :: rest
    else e :: bumpDay rest key label

/-- One point of the App.tsx `agentsOverTime` output:
`{date: label, count, cumulative, key}`. -/
structure GrowthPoint where
  date : String
  count : Nat
  cumulative : Nat
  key : String
  deriving Repr, DecidableEq

/-- The final `sorted.map` of App.tsx `agentsOverTime`: a running cumulative
sum threaded through the sorted buckets. -/
def cumSum (acc : Nat) : List DayBucket → List GrowthPoint
  | [] => []
  | e :: rest => ⟨e.label, e.count, acc + e.count, e.key⟩ :: cumSum (acc + e.count) rest

/-- `agentsOverTime` from App.tsx.  `jsDate s` models `new Date(s)`: `none`
when `getTime()` is `NaN` (the agent is skipped), otherwise the pair of the
ISO day key `toISOString().slice(0, 10)` and the locale label
`toLocaleDateString('en-US', {month:'short', day:'numeric'})`.  The sort
comparator is `a[0].localeCompare(b[0])`; on fixed-format ISO day keys
(digits and hyphens, equal length) locale collation coincides with
codepoint order, modelled by `String` order. -/
def dayBuckets (jsDate : String → Option (String × String)) (agents : List Agent) :
    List DayBucket :=
  agents.foldl (fun acc a =>
    match jsDate a.created_at with
    | none => acc
    | some kl => bumpDay acc kl.1 (tickFormatter kl.2 9)) []

/-- The App.tsx sort comparator on day buckets: `a[0].localeCompare(b[0])`
ascending. -/
def dayKeyLe (e₁ e₂ : DayBucket) : Bool := decide (e₁.key ≤ e₂.key)

/-- `agentsOverTime` from App.tsx: build the buckets, sort them by ISO day
key, then map with a running cumulative sum. -/
def agentsOverTime (jsDate : String → Option (String × String)) (agents : List Agent) :
    List GrowthPoint :=
  cumSum 0 ((dayBuckets jsDate agents).mergeSort dayKeyLe)

/-- One step of the JS `reduce` used by the recharts variant to tally string
keys (`acc[k] = (acc[k] || 0) + 1`).  A JS object keeps non-integer-like
string keys in insertion order, modelled by an insertion-ordered association
list: the first entry with the key is bumped, a new key is appended. -/
def bumpKey (acc : List (String × Nat)) (k : String) : List (String × Nat) :=
  match acc with
  | [] => [(k, 1)]
  | e :: rest => if e.1 = k then (e.1, e.2 + 1) :: rest else e :: bumpKey rest k

/-- The `agentsByDate` reduce of the recharts variant (part_000 lines
142-146), parametrized by `fmt`, which models
`new Date(s).toLocaleDateString('en-US', {month:'short', day:'numeric'})`.
`fmt` is total: JS formats an invalid date as the string `"Invalid Date"`,
so no agent is ever skipped. -/
def agentsByDate (fmt : String → String) (agents : List Agent) : List (String × Nat) :=
  agents.foldl (fun acc a => bumpKey acc (fmt a.created_at)) []

/-- The cumulative loop of the recharts variant (`sortedDates.forEach`):
each output entry is `{date, count, cumulative}`. -/
def cumKey (acc : Nat) : List (String × Nat) → List (String × Nat × Nat)
  | [] => []
  | e :: rest => (e.1, e.2, acc + e.2) :: cumKey (acc + e.2) rest

/-- The recharts variant's `sortedDates` comparator (part_000 lines 150-157):
`new Date(a[0] + " 2026").getTime() - new Date(b[0] + " 2026").getTime()`.
`pt` models `Date.parse`, with `none` for `NaN`; a `NaN` comparator result
leaves the compared pair in input order in the stable sort. -/
def dateKeyLe (pt : String → Option Int) (a b : String × Nat) : Bool :=
  match pt (a.1 ++ " 2026"), pt (b.1 ++ " 2026") with
  | some x, some y => decide (x ≤ y)
  | _, _ => true

/-- The recharts variant's agents-over-time output: sorted tally entries with
a running cumulative sum. -/
def agentsOverTimeRecharts (fmt : String → String) (pt : String → Option Int)
    (agents : List Agent) : List (String × Nat × Nat) :=
  cumKey 0 ((agentsByDate fmt agents).mergeSort (dateKeyLe pt))

/-- Running totals of a list of counts: the specification-side description of
a cumulative sequence, used to state that the cumulative field is the running
sum of the count field. -/
def runningTotals (acc : Nat) : List Nat → List Nat
  | [] => []
  | c :: rest => (acc + c) :: runningTotals (acc + c) rest

/-- An agent whose creation timestamp is not a parseable date (every field
otherwise inert).  JS `new Date("not-a-date")` is an invalid date:
`getTime()` is `NaN` and `toLocaleDateString` renders `"Invalid Date"`. -/
def badAgent : Agent :=
  { id := "a1", name := "Agent One", jobs_completed := 0, jobs_posted := 0,
    reputation := 0, onChainBalance := "0", created_at := "not-a-date",
    specialties := [] }

/-- Models `new Date(s)` on inputs that are all invalid dates: App.tsx's
`Number.isNaN(createdAt.getTime())` check fires, so the agent is skipped. -/
def jsDateInvalid : String → Option (String × String) := fun _ => none

/-- Models `toLocaleDateString` on inputs that are all invalid dates: JS
formats an invalid date as the string `"Invalid Date"`. -/
def fmtInvalid : String → String := fun _ => "Invalid Date"

/-- Models `Date.parse` on inputs that are all unparseable (such as
`"Invalid Date 2026"`): the result is `NaN`. -/
def ptInvalid : String → Option Int := fun _ => none

/-- An agent created on 31 December 2025. -/
def agentDec : Agent :=
  { id := "aDec", name := "December Agent", jobs_completed := 0, jobs_posted := 0,
    reputation := 0, onChainBalance := "0", created_at := "2025-12-31",
    specialties := [] }

/-- An agent created on 1 January 2026, the calendar day after `agentDec`. -/
def agentJan : Agent :=
  { id := "aJan", name := "January Agent", jobs_completed := 0, jobs_posted := 0,
    reputation := 0, onChainBalance := "0", created_at := "2026-01-01",
    specialties := [] }

/-- Models `toLocaleDateString('en-US', {month:'short', day:'numeric'})` on the
two timestamps above: the year is dropped, `"2025-12-31"` renders `"Dec 31"`
and `"2026-01-01"` renders `"Jan 1"` (UTC; any other input is treated as an
invalid date). -/
def fmtYearless : String → String := fun s =>
  if s = "2025-12-31" then "Dec 31"
  else if s = "2026-01-01" then "Jan 1"
  else "Invalid Date"

/-- Models `Date.parse` on the reconstructed strings the recharts variant
builds by appending `" 2026"`: `"Dec 31 2026"` is epoch millisecond
1798675200000 and `"Jan 1 2026"` is 1767225600000 (midnight UTC), so the
December key parses to a later instant than the January key. -/
def ptYear2026 : String → Option Int := fun s =>
  if s = "Dec 31 2026" then some 1798675200000
  else if s = "Jan 1 2026" then some 1767225600000
  else none

/-! ### Leaderboard (`topAgents`, both variants)

Both variants copy the agent list (`[...agents]`), sort the copy with a
comparator selected by the `leaderboardSort` state, and take the first 10.
The comparator returns `metric(b) - metric(a)` (descending); a stable JS
sort places `a` before `b` exactly when the comparator result is not
positive, and a `NaN` result (from an unparseable balance) is not positive
either, so the pair is left in input order. -/

/-- The three leaderboard sort keys (`'balance' | 'jobs' | 'reputation'`). -/
inductive SortKey where
  | jobs
  | reputation
  | balance
  deriving Repr, DecidableEq

/-- The `topAgents` sort comparator as an order test for the stable sort.
`parse` models `parseInt` on balances (radix 10 in App.tsx, default radix in
part_000; they agree except on hex-prefixed strings). -/
def leaderLe (parse : String → Option Int) (k : SortKey) (a b : Agent) : Bool :=
  match k with
  | .jobs => decide (b.jobs_completed ≤ a.jobs_completed)
  | .reputation => decide (b.reputation ≤ a.reputation)
  | .balance =>
    match parse (jsOr a.onChainBalance "0"), parse (jsOr b.onChainBalance "0") with
    | some x, some y => decide (y ≤ x)
    | _, _ => true

/-- `topAgents` from both variants (App.tsx lines 358-368, part_000 lines
196-204): stable-sort a copy of the agent list by the selected key's
comparator and take the first 10. -/
def topAgents (parse : String → Option Int) (k : SortKey) (agents : List Agent) :
    List Agent :=
  (agents.mergeSort (leaderLe parse k)).take 10

/-- The ranking metric named by each sort key: completed-job count,
reputation score, or the parsed on-chain balance (defaulting to 0). -/
def sortMetric (parse : String → Option Int) (k : SortKey) (a : Agent) : Int :=
  match k with
  | .jobs => a.jobs_completed
  | .reputation => a.reputation
  | .balance => (parse (jsOr a.onChainBalance "0")).getD 0

/-- Modelled from the spec: "Balance parsing: `onChainBalance` of the empty
string or a non-numeric string is treated as `0` for ranking purposes" — a total
balance parser that maps every string to its parsed value and unparseable
strings to 0, to be compared with the code's `parseInt`-based comparator. -/
def specBalanceParse (s : String) : Option Int := some ((jsParseInt s).getD 0)

/-- Agent A of the spec's leaderboard example: `completed = 5`. -/
def agentA : Agent :=
  { id := "aA", name := "A", jobs_completed := 5, jobs_posted := 0,
    reputation := 10, onChainBalance := "100", created_at := "2026-01-02",
    specialties := [] }

/-- Agent B of the spec's leaderboard example: `completed = 9`. -/
def agentB : Agent :=
  { id := "aB", name := "B", jobs_completed := 9, jobs_posted := 0,
    reputation := 3, onChainBalance := "7", created_at := "2026-01-03",
    specialties := [] }

/-- An agent whose on-chain balance is the non-numeric string `"abc"`
(`parseInt` yields `NaN`). -/
def agentX : Agent :=
  { id := "aX", name := "X", jobs_completed := 0, jobs_posted := 0,
    reputation := 0, onChainBalance := "abc", created_at := "2026-01-04",
    specialties := [] }

/-- An agent with the numeric on-chain balance `"5"`. -/
def agentY : Agent :=
  { id := "aY", name := "Y", jobs_completed := 0, jobs_posted := 0,
    reputation := 0, onChainBalance := "5", created_at := "2026-01-05",
    specialties := [] }

/-- An agent whose on-chain balance is the empty string. -/
def agentE : Agent :=
  { id := "aE", name := "E", jobs_completed := 0, jobs_posted := 0,
    reputation := 0, onChainBalance := "", created_at := "2026-01-06",
    specialties := [] }

/-! ### Jobs by type -/

/-- The effective job type: `job.type || 'general'` (a missing or empty type
falls back to `"general"`). -/
def effType (j : Job) : String := jsOr j.type "general"

/-- The `jobsByType` reduce of both variants: an insertion-ordered tally of
jobs per effective type. -/
def jobsByType (jobs : List Job) : List (String × Nat) :=
  jobs.foldl (fun acc j => bumpKey acc (effType j)) []

/-- One entry of App.tsx `jobTypeData`: display name truncated to 14
characters, the full type name, and the job count. -/
structure TypeDatum where
  name : String
  fullName : String
  jobs : Nat
  deriving Repr, DecidableEq

/-- The App.tsx `jobTypeData` sort comparator: `b.Jobs - a.Jobs`
(descending by count). -/
def typeCountLe (a b : TypeDatum) : Bool := decide (b.jobs ≤ a.jobs)

/-- `jobTypeData` from App.tsx (lines 306-315): map the tally entries to
display data, sort descending by count, keep the top 6. -/
def jobTypeData (jobs : List Job) : List TypeDatum :=
  (((jobsByType jobs).map (fun e => ⟨tickFormatter e.1 14, e.1, e.2⟩)).mergeSort
    typeCountLe).take 6

/-- `jobTypeData` of the recharts variant (part_000 line 166): the tally
entries verbatim (`{name, value}` per entry), in first-occurrence order,
with no sorting and no truncation. -/
def jobTypeDataRecharts (jobs : List Job) : List (String × Nat) :=
  (jobsByType jobs).map (fun e => (e.1, e.2))

/-- The count recorded for key `k` in an insertion-ordered tally (the JS
object read `acc[k] || 0`). -/
def keyCount (acc : List (String × Nat)) (k : String) : Nat :=
  match acc.find? (fun e => e.1 == k) with
  | some e => e.2
  | none => 0

/-- A helper job with a given id, type and reward (the other fields are
inert for the tally and histogram computations). -/
def mkJob (i : String) (ty : String) (reward : Int) : Job :=
  { id := i, title := "job " ++ i, reward := reward, status := "open",
    type := ty, created_at := "2026-01-01" }

/-- Seven jobs with seven pairwise-distinct types. -/
def sevenJobs : List Job :=
  [mkJob "j1" "t1" 0, mkJob "j2" "t2" 0, mkJob "j3" "t3" 0, mkJob "j4" "t4" 0,
   mkJob "j5" "t5" 0, mkJob "j6" "t6" 0, mkJob "j7" "t7" 0]

/-- One job of type `"x"` followed by two jobs of type `"y"`: the tally lists
type `"x"` (count 1) before type `"y"` (count 2). -/
def skewJobs : List Job :=
  [mkJob "k1" "x" 0, mkJob "k2" "y" 0, mkJob "k3" "y" 0]

/-- A single job of type `"alpha"`. -/
def jobAlpha : Job := mkJob "m1" "alpha" 0

/-! ### Activity feed -/

/-- The App.tsx `activityItems` sort comparator:
`new Date(b.timestamp).getTime() - new Date(a.timestamp).getTime()`
(descending by time).  `pt` models `getTime` after `new Date`, `none` for
`NaN`; a `NaN` comparator result leaves the pair in input order. -/
def activityLe (pt : String → Option Int) (a b : ActivityItem) : Bool :=
  match pt a.timestamp, pt b.timestamp with
  | some x, some y => decide (y ≤ x)
  | _, _ => true

/-- `activityItems` from App.tsx (lines 370-374): stable-sort a copy of the
activity list by timestamp descending and take the first 12. -/
def activityItems (pt : String → Option Int) (activity : List ActivityItem) :
    List ActivityItem :=
  (activity.mergeSort (activityLe pt)).take 12

/-- The recharts variant renders `activity.slice(0, 15)` (part_000 line 418):
the first 15 items in API order, with no sorting. -/
def activityFeedRecharts (activity : List ActivityItem) : List ActivityItem :=
  activity.take 15

/-- An activity item from the start of 2020. -/
def actOld : ActivityItem :=
  { id := "e1", type := "job_posted", agent_name := "A", job_title := none,
    timestamp := "2020-01-01T00:00:00Z" }

/-- An activity item from the start of 2021, one year after `actOld`. -/
def actNew : ActivityItem :=
  { id := "e2", type := "work_submitted", agent_name := "B", job_title := none,
    timestamp := "2021-01-01T00:00:00Z" }

/-- Models `new Date(s).getTime()` on the two ISO timestamps above: their
epoch milliseconds (midnight UTC); any other input is treated as invalid. -/
def ptEpoch : String → Option Int := fun s =>
  if s = "2020-01-01T00:00:00Z" then some 1577836800000
  else if s = "2021-01-01T00:00:00Z" then some 1609459200000
  else none

/-! ### Component state, poll cycle and rendering -/

/-- The React state of the dashboard component (both variants): the four
data snapshots plus the loading flag, the error message and the selected
leaderboard sort key. -/
structure DashState where
  stats : Option DashboardStats
  agents : List Agent
  jobs : List Job
  activity : List ActivityItem
  loading : Bool
  error : Option String
  leaderboardSort : SortKey
  deriving Repr, DecidableEq

/-- The `onClick` handler of a leaderboard sort button:
`setLeaderboardSort(key)` replaces only the sort key. -/
def setLeaderboardSort (s : DashState) (k : SortKey) : DashState :=
  { s with leaderboardSort := k }

/-- The outcome of one `fetch` as observed by `fetchData`: a resolved
response with its `ok` flag and parsed JSON body, or a rejection carrying
the message of the `Error` it rejected with (browser `fetch` rejects with a
`TypeError`, an `Error` instance, so the catch clause reads `e.message`). -/
inductive FetchOutcome (β : Type) where
  | resolved (ok : Bool) (body : β)
  | rejected (msg : String)
  deriving Repr, DecidableEq

/-- The parsed body of `/api/dashboard`: `{stats, activity}`; the code reads
`dashData.activity || []`, so the activity list may be absent. -/
structure DashBody where
  stats : DashboardStats
  activity : Option (List ActivityItem)
  deriving Repr, DecidableEq

/-- Whether one fetch outcome makes the poll cycle fail: a rejection, or a
resolved response that is not `ok` (non-2xx status). -/
def isFailure {β : Type} : FetchOutcome β → Bool
  | .resolved ok _ => !ok
  | .rejected _ => true

/-- One `fetchData` poll cycle (identical in both variants, App.tsx lines
234-265).  `Promise.all` rejects with the first rejection (modelled as the
first in argument order); otherwise, if any response is not `ok`, the code
throws `Error('Failed to fetch data')`; the catch clause records the error
message and clears the loading flag without touching any snapshot.  Only
when all three responses are `ok` are the four snapshots replaced (note the
error field is left unchanged on success, as in the source). -/
def fetchCycle (s : DashState) (dash : FetchOutcome DashBody)
    (agentsRes : FetchOutcome (List Agent)) (jobsRes : FetchOutcome (List Job)) :
    DashState :=
  match dash, agentsRes, jobsRes with
  | .rejected m, _, _ => { s with error := some m, loading := false }
  | .resolved _ _, .rejected m, _ => { s with error := some m, loading := false }
  | .resolved _ _, .resolved _ _, .rejected m => { s with error := some m, loading := false }
  | .resolved ok₁ body, .resolved ok₂ ags, .resolved ok₃ jbs =>
    if ok₁ && ok₂ && ok₃ then
      { s with stats := some body.stats, activity := body.activity.getD [],
               agents := ags, jobs := jbs, loading := false }
    else { s with error := some "Failed to fetch data", loading := false }

/-- What the component's top-level branches render: the loading skeleton,
the error card with its message, or the dashboard content (both variants
test `loading` first, then `error`). -/
inductive View where
  | skeleton
  | errorView (msg : String)
  | dashboard (stats : Option DashboardStats)
  deriving Repr, DecidableEq

/-- The top-level render branch of both variants. -/
def render (s : DashState) : View :=
  if s.loading then View.skeleton
  else
    match s.error with
    | some m => View.errorView m
    | none => View.dashboard s.stats

/-! ### Completion rate -/

/-- A JS number restricted to the values arising here: an exact rational
(integer arithmetic and single divisions stay exact in binary64 for the
magnitudes involved; exactness is not used by the claims), `NaN`, or the two
infinities.  Negative zero is not modelled (no operand here produces it). -/
inductive JSNum where
  | num (val : ℚ)
  | nan
  | posInf
  | negInf
  deriving Repr, DecidableEq

/-- JS division on `JSNum`: `0 / 0` is `NaN`, a nonzero number divided by
zero gives a signed infinity, and `NaN` propagates. -/
def jsDiv : JSNum → JSNum → JSNum
  | .num x, .num y =>
    if y = 0 then (if x = 0 then .nan else if 0 < x then .posInf else .negInf)
    else .num (x / y)
  | .posInf, .num y => if y < 0 then .negInf else .posInf
  | .negInf, .num y => if y < 0 then .posInf else .negInf
  | .num _, .posInf => .num 0
  | .num _, .negInf => .num 0
  | _, _ => .nan

/-- JS multiplication on `JSNum`: `NaN` propagates, and zero times an
infinity is `NaN`. -/
def jsMul : JSNum → JSNum → JSNum
  | .num x, .num y => .num (x * y)
  | .posInf, .num y => if y = 0 then .nan else if y < 0 then .negInf else .posInf
  | .negInf, .num y => if y = 0 then .nan else if y < 0 then .posInf else .negInf
  | .num x, .posInf => if x = 0 then .nan else if x < 0 then .negInf else .posInf
  | .num x, .negInf => if x = 0 then .nan else if x < 0 then .posInf else .negInf
  | .posInf, .posInf => .posInf
  | .posInf, .negInf => .negInf
  | .negInf, .posInf => .negInf
  | .negInf, .negInf => .posInf
  | _, _ => .nan

/-- `completionRateValue` from App.tsx (line 383, with the `?? 0` defaults of
lines 377-380): `totalJobs > 0 ? (completedJobs / totalJobs) * 100 : 0`. -/
def completionRateValue (stats : Option DashboardStats) : JSNum :=
  let totalJobs := (stats.map DashboardStats.totalJobs).getD 0
  let completedJobs := (stats.map DashboardStats.completedJobs).getD 0
  if 0 < totalJobs then
    jsMul (jsDiv (JSNum.num (completedJobs : ℚ)) (JSNum.num (totalJobs : ℚ)))
      (JSNum.num 100)
  else JSNum.num 0

/-- The recharts variant's completion rate (part_000 line 174) when stats
are present, before `toFixed(1)`:
`(stats.completedJobs / stats.totalJobs) * 100`, with no guard against
`totalJobs` being zero (`NaN.toFixed(1)` renders the string `"NaN"`). -/
def completionRateRecharts (st : DashboardStats) : JSNum :=
  jsMul (jsDiv (JSNum.num (st.completedJobs : ℚ)) (JSNum.num (st.totalJobs : ℚ)))
    (JSNum.num 100)

/-- A stats snapshot with no jobs at all. -/
def statsZero : DashboardStats :=
  { totalAgents := 0, totalJobs := 0, openJobs := 0, claimedJobs := 0,
    completedJobs := 0, totalRewardsPaid := 0, totalRewardsEscrowed := 0 }

/-- A stats snapshot with 4 jobs, 1 of them completed. -/
def statsPos : DashboardStats :=
  { totalAgents := 2, totalJobs := 4, openJobs := 2, claimedJobs := 1,
    completedJobs := 1, totalRewardsPaid := 0, totalRewardsEscrowed := 0 }

/-- Descending comparison by an integer key: the total, transitive order
test that each `NaN`-free comparator agrees with on parseable data. -/
def descLe {α : Type} (m : α → Int) (a b : α) : Bool := decide (m b ≤ m a)

/-- Ascending comparison by an integer key. -/
def ascLe {α : Type} (m : α → Int) (a b : α) : Bool := decide (m a ≤ m b)

-- ===================================================================
-- Theorems
-- ===================================================================

theorem foldl_bumpReward_spec (jobs : List Job) (c : RewardCounts) :
    jobs.foldl (fun acc j => bumpReward acc j.reward) c =
      ⟨c.b0 + jobs.countP (fun j => decide (j.reward = 0)),
       c.b1 + jobs.countP (fun j => decide (j.reward ≠ 0 ∧ j.reward ≤ 10000)),
       c.b2 + jobs.countP (fun j => decide (10000 < j.reward ∧ j.reward ≤ 50000)),
       c.b3 + jobs.countP (fun j => decide (50000 < j.reward ∧ j.reward ≤ 100000)),
       c.b4 + jobs.countP (fun j => decide (100000 < j.reward ∧ j.reward ≤ 500000)),
       c.b5 + jobs.countP (fun j => decide (500000 < j.reward))⟩ := by
  induction jobs generalizing c with
  | nil => simp
  | cons j rest ih =>
    rw [List.foldl_cons, ih]
    simp only [List.countP_cons, ← not_le, RewardCounts.mk.injEq]
    by_cases h1 : j.reward = 0 <;> by_cases h2 : j.reward ≤ 10000 <;>
      by_cases h3 : j.reward ≤ 50000 <;> by_cases h4 : j.reward ≤ 100000 <;>
      by_cases h5 : j.reward ≤ 500000 <;>
      refine ⟨?_, ?_, ?_, ?_, ?_, ?_⟩ <;>
      simp [bumpReward, h1, h2, h3, h4, h5] <;> omega

theorem sum_countP_buckets (jobs : List Job) :
    jobs.countP (fun j => decide (j.reward = 0))
      + jobs.countP (fun j => decide (j.reward ≠ 0 ∧ j.reward ≤ 10000))
      + jobs.countP (fun j => decide (10000 < j.reward ∧ j.reward ≤ 50000))
      + jobs.countP (fun j => decide (50000 < j.reward ∧ j.reward ≤ 100000))
      + jobs.countP (fun j => decide (100000 < j.reward ∧ j.reward ≤ 500000))
      + jobs.countP (fun j => decide (500000 < j.reward)) = jobs.length := by
  induction jobs with
  | nil => simp
  | cons j rest ih =>
    simp only [List.countP_cons, List.length_cons, ← not_le]
    by_cases h1 : j.reward = 0 <;> by_cases h2 : j.reward ≤ 10000 <;>
      by_cases h3 : j.reward ≤ 50000 <;> by_cases h4 : j.reward ≤ 100000 <;>
      by_cases h5 : j.reward ≤ 500000 <;> simp [h1, h2, h3, h4, h5] at ih ⊢ <;> omega

/-- C1: for every list of jobs the reward histogram carries the six fixed
bucket labels in fixed order, its counts sum to the number of jobs, and each
bucket's count is exactly the number of jobs whose reward falls in that
bucket's threshold interval (reward 0 in bucket `"0"`, rewards in `(0,10000]`
in `"1-10K"`, `(10000,50000]` in `"10K-50K"`, `(50000,100000]` in
`"50K-100K"`, `(100000,500000]` in `"100K-500K"`, above 500000 in `"500K+"`),
so every job is counted in exactly one bucket. -/
theorem claim_C1_reward_histogram (jobs : List Job) :
    (rewardBuckets jobs).map Prod.fst =
      ["0", "1-10K", "10K-50K", "50K-100K", "100K-500K", "500K+"]
    ∧ ((rewardBuckets jobs).map Prod.snd).sum = jobs.length
    ∧ (rewardBuckets jobs).map Prod.snd =
      [jobs.countP (fun j => decide (j.reward = 0)),
       jobs.countP (fun j => decide (j.reward ≠ 0 ∧ j.reward ≤ 10000)),
       jobs.countP (fun j => decide (10000 < j.reward ∧ j.reward ≤ 50000)),
       jobs.countP (fun j => decide (50000 < j.reward ∧ j.reward ≤ 100000)),
       jobs.countP (fun j => decide (100000 < j.reward ∧ j.reward ≤ 500000)),
       jobs.countP (fun j => decide (500000 < j.reward))] := by
  simp only [rewardBuckets]
  rw [foldl_bumpReward_spec]
  refine ⟨?_, ?_, ?_⟩
  · simp only [List.map_cons, List.map_nil]
    decide
  · simp only [List.map_cons, List.map_nil, List.sum_cons, List.sum_nil]
    have := sum_countP_buckets jobs
    simp only [Nat.zero_add] at *
    omega
  · simp

/-! ### Lemmas about the day-bucket fold and the cumulative map -/

theorem bumpDay_count_sum (acc : List DayBucket) (k l : String) :
    ((bumpDay acc k l).map DayBucket.count).sum
      = (acc.map DayBucket.count).sum + 1 := by
  induction acc with
  | nil => simp [bumpDay]
  | cons e rest ih =>
    by_cases h : e.key = k <;> simp [bumpDay, h, ih] <;> omega

theorem bumpDay_count_pos (acc : List DayBucket) (k l : String)
    (h : ∀ e ∈ acc, 1 ≤ e.count) : ∀ e ∈ bumpDay acc k l, 1 ≤ e.count := by
  induction acc with
  | nil => simp [bumpDay]
  | cons e rest ih =>
    by_cases hk : e.key = k
    · intro f hf
      simp [bumpDay, hk] at hf
      rcases hf with hf | hf
      · subst hf
        show 1 ≤ e.count + 1
        omega
      · exact h f (List.mem_cons_of_mem _ hf)
    · intro f hf
      simp [bumpDay, hk] at hf
      rcases hf with hf | hf
      · exact hf ▸ h e (List.mem_cons_self _ _)
      · exact ih (fun g hg => h g (List.mem_cons_of_mem _ hg)) f hf

theorem dayBuckets_fold_sum (jsDate : String → Option (String × String))
    (agents : List Agent) (acc : List DayBucket) :
    (((agents.foldl (fun acc a =>
        match jsDate a.created_at with
        | none => acc
        | some kl => bumpDay acc kl.1 (tickFormatter kl.2 9)) acc)).map DayBucket.count).sum
      = (acc.map DayBucket.count).sum
        + agents.countP (fun a => (jsDate a.created_at).isSome) := by
  induction agents generalizing acc with
  | nil => simp
  | cons a rest ih =>
    rw [List.foldl_cons, List.countP_cons]
    cases h : jsDate a.created_at with
    | none => simp [h, ih]
    | some kl => simp [h, ih, bumpDay_count_sum]; omega

theorem dayBuckets_sum (jsDate : String → Option (String × String)) (agents : List Agent) :
    ((dayBuckets jsDate agents).map DayBucket.count).sum
      = agents.countP (fun a => (jsDate a.created_at).isSome) := by
  have := dayBuckets_fold_sum jsDate agents []
  simpa [dayBuckets] using this

theorem dayBuckets_count_pos (jsDate : String → Option (String × String))
    (agents : List Agent) : ∀ e ∈ dayBuckets jsDate agents, 1 ≤ e.count := by
  unfold dayBuckets
  suffices h : ∀ (acc : List DayBucket), (∀ e ∈ acc, 1 ≤ e.count) →
      ∀ e ∈ agents.foldl (fun acc a =>
        match jsDate a.created_at with
        | none => acc
        | some kl => bumpDay acc kl.1 (tickFormatter kl.2 9)) acc, 1 ≤ e.count by
    exact h [] (by simp)
  induction agents with
  | nil => intro acc hacc; simpa using hacc
  | cons a rest ih =>
    intro acc hacc
    rw [List.foldl_cons]
    cases h : jsDate a.created_at with
    | none => simpa [h] using ih acc hacc
    | some kl =>
      simp only [h]
      exact ih _ (bumpDay_count_pos acc _ _ hacc)

theorem cumSum_map_cumulative (acc : Nat) (l : List DayBucket) :
    (cumSum acc l).map GrowthPoint.cumulative
      = runningTotals acc (l.map DayBucket.count) := by
  induction l generalizing acc with
  | nil => simp [cumSum, runningTotals]
  | cons e rest ih => simp [cumSum, runningTotals, ih]

theorem cumSum_map_key (acc : Nat) (l : List DayBucket) :
    (cumSum acc l).map GrowthPoint.key = l.map DayBucket.key := by
  induction l generalizing acc with
  | nil => simp [cumSum]
  | cons e rest ih => simp [cumSum, ih]

theorem cumSum_eq_nil_iff (acc : Nat) (l : List DayBucket) :
    cumSum acc l = [] ↔ l = [] := by
  cases l <;> simp [cumSum]

theorem runningTotals_getLast? (acc : Nat) (l : List Nat) :
    (runningTotals acc l).getLast? = if l = [] then none else some (acc + l.sum) := by
  induction l generalizing acc with
  | nil => simp [runningTotals]
  | cons c rest ih =>
    cases rest with
    | nil => simp [runningTotals]
    | cons d rs =>
      have h := ih (acc + c)
      rw [runningTotals, if_neg (List.cons_ne_nil d rs)] at h
      rw [runningTotals, runningTotals, List.getLast?_cons_cons, h,
          if_neg (List.cons_ne_nil c (d :: rs))]
      simp only [List.sum_cons, Option.some.injEq]
      omega

theorem runningTotals_ge (acc : Nat) (l : List Nat) :
    ∀ x ∈ runningTotals acc l, acc ≤ x := by
  induction l generalizing acc with
  | nil => simp [runningTotals]
  | cons c rest ih =>
    intro x hx
    simp only [runningTotals, List.mem_cons] at hx
    rcases hx with hx | hx
    · omega
    · have := ih (acc + c) x hx
      omega

theorem runningTotals_pairwise (acc : Nat) (l : List Nat) :
    (runningTotals acc l).Pairwise (· ≤ ·) := by
  induction l generalizing acc with
  | nil => simp [runningTotals]
  | cons c rest ih =>
    rw [runningTotals]
    exact List.Pairwise.cons (fun x hx => runningTotals_ge (acc + c) rest x hx) (ih (acc + c))

theorem mergeSort_eq_nil_iff {α : Type} (l : List α) (le : α → α → Bool) :
    l.mergeSort le = [] ↔ l = [] := by
  constructor
  · intro h
    have hlen : (l.mergeSort le).length = l.length := List.length_mergeSort l
    rw [h] at hlen
    exact List.length_eq_zero.mp hlen.symm
  · intro h; simp [h]

theorem mergeSort_map_sum {α : Type} (l : List α) (le : α → α → Bool) (f : α → Nat) :
    ((l.mergeSort le).map f).sum = (l.map f).sum :=
  ((List.mergeSort_perm l le).map f).sum_eq

theorem dayBuckets_eq_nil_iff (jsDate : String → Option (String × String))
    (agents : List Agent) :
    dayBuckets jsDate agents = []
      ↔ agents.countP (fun a => (jsDate a.created_at).isSome) = 0 := by
  constructor
  · intro h
    have := dayBuckets_sum jsDate agents
    rw [h] at this
    simpa using this.symm
  · intro h
    cases hb : dayBuckets jsDate agents with
    | nil => rfl
    | cons e rest =>
      exfalso
      have hsum := dayBuckets_sum jsDate agents
      rw [hb, h] at hsum
      have hpos := dayBuckets_count_pos jsDate agents e (by rw [hb]; exact List.mem_cons_self _ _)
      simp [List.sum_cons] at hsum
      omega

/-! ### Lemmas about the recharts key tally and cumulative map -/

theorem bumpKey_snd_sum (acc : List (String × Nat)) (k : String) :
    ((bumpKey acc k).map Prod.snd).sum = (acc.map Prod.snd).sum + 1 := by
  induction acc with
  | nil => simp [bumpKey]
  | cons e rest ih =>
    by_cases h : e.1 = k <;> simp [bumpKey, h, ih] <;> omega

theorem bumpKey_snd_pos (acc : List (String × Nat)) (k : String)
    (h : ∀ e ∈ acc, 1 ≤ e.2) : ∀ e ∈ bumpKey acc k, 1 ≤ e.2 := by
  induction acc with
  | nil => simp [bumpKey]
  | cons e rest ih =>
    by_cases hk : e.1 = k
    · intro f hf
      simp [bumpKey, hk] at hf
      rcases hf with hf | hf
      · simp [hf]
      · exact h f (List.mem_cons_of_mem _ hf)
    · intro f hf
      simp [bumpKey, hk] at hf
      rcases hf with hf | hf
      · exact hf ▸ h e (List.mem_cons_self _ _)
      · exact ih (fun g hg => h g (List.mem_cons_of_mem _ hg)) f hf

theorem keyTally_fold_sum {α : Type} (f : α → String) (l : List α)
    (acc : List (String × Nat)) :
    ((l.foldl (fun acc x => bumpKey acc (f x)) acc).map Prod.snd).sum
      = (acc.map Prod.snd).sum + l.length := by
  induction l generalizing acc with
  | nil => simp
  | cons x rest ih =>
    rw [List.foldl_cons, ih, bumpKey_snd_sum]
    simp only [List.length_cons]
    omega

theorem keyTally_fold_pos {α : Type} (f : α → String) (l : List α)
    (acc : List (String × Nat)) (hacc : ∀ e ∈ acc, 1 ≤ e.2) :
    ∀ e ∈ l.foldl (fun acc x => bumpKey acc (f x)) acc, 1 ≤ e.2 := by
  induction l generalizing acc with
  | nil => simpa using hacc
  | cons x rest ih =>
    rw [List.foldl_cons]
    exact ih _ (bumpKey_snd_pos acc _ hacc)

theorem agentsByDate_sum (fmt : String → String) (agents : List Agent) :
    ((agentsByDate fmt agents).map Prod.snd).sum = agents.length := by
  have := keyTally_fold_sum (fun a : Agent => fmt a.created_at) agents []
  simpa [agentsByDate] using this

theorem agentsByDate_eq_nil_iff (fmt : String → String) (agents : List Agent) :
    agentsByDate fmt agents = [] ↔ agents = [] := by
  constructor
  · intro h
    have := agentsByDate_sum fmt agents
    rw [h] at this
    simpa using List.length_eq_zero.mp this.symm
  · intro h; simp [h, agentsByDate]

theorem cumKey_map_cumulative (acc : Nat) (l : List (String × Nat)) :
    (cumKey acc l).map (fun e => e.2.2) = runningTotals acc (l.map Prod.snd) := by
  induction l generalizing acc with
  | nil => simp [cumKey, runningTotals]
  | cons e rest ih => simp [cumKey, runningTotals, ih]

theorem cumKey_eq_nil_iff (acc : Nat) (l : List (String × Nat)) :
    cumKey acc l = [] ↔ l = [] := by
  cases l <;> simp [cumKey]

/-- C2 (amended): in the Tremor variant (App.tsx), for every date model and
every agent list, the cumulative sequence of `agentsOverTime` is
non-decreasing, its final value equals the number of agents whose creation
timestamp parses, and the output is empty exactly when no agent has a
parseable timestamp (so empty and all-invalid inputs yield an empty
sequence).  In the recharts variant nothing is discarded: every agent is
tallied (an invalid date under its formatted key), so the final cumulative
value always equals the total number of agents and the output is empty only
for an empty input. -/
theorem claim_C2_agents_over_time (jsDate : String → Option (String × String))
    (agents : List Agent) :
    ((agentsOverTime jsDate agents).map GrowthPoint.cumulative).Pairwise (· ≤ ·)
    ∧ ((agentsOverTime jsDate agents).map GrowthPoint.cumulative).getLast?
        = (if agents.countP (fun a => (jsDate a.created_at).isSome) = 0 then none
           else some (agents.countP (fun a => (jsDate a.created_at).isSome)))
    ∧ (agentsOverTime jsDate agents = []
        ↔ agents.countP (fun a => (jsDate a.created_at).isSome) = 0)
    ∧ ∀ (fmt : String → String) (pt : String → Option Int),
        ((agentsOverTimeRecharts fmt pt agents).map (fun e => e.2.2)).getLast?
          = (if agents = [] then none else some agents.length) := by
  have hmapcum : (agentsOverTime jsDate agents).map GrowthPoint.cumulative
      = runningTotals 0 (((dayBuckets jsDate agents).mergeSort dayKeyLe).map DayBucket.count) := by
    rw [agentsOverTime, cumSum_map_cumulative]
  have hsum : (((dayBuckets jsDate agents).mergeSort dayKeyLe).map DayBucket.count).sum
      = agents.countP (fun a => (jsDate a.created_at).isSome) := by
    rw [mergeSort_map_sum, dayBuckets_sum]
  have hnil : ((dayBuckets jsDate agents).mergeSort dayKeyLe) = []
      ↔ agents.countP (fun a => (jsDate a.created_at).isSome) = 0 := by
    rw [mergeSort_eq_nil_iff, dayBuckets_eq_nil_iff]
  refine ⟨?_, ?_, ?_, ?_⟩
  · rw [hmapcum]
    exact runningTotals_pairwise 0 _
  · rw [hmapcum, runningTotals_getLast?]
    by_cases h : agents.countP (fun a => (jsDate a.created_at).isSome) = 0
    · simp [List.map_eq_nil_iff, hnil.mpr h, h]
    · have hne : ¬ ((dayBuckets jsDate agents).mergeSort dayKeyLe) = [] :=
        fun hc => h (hnil.mp hc)
      simp [List.map_eq_nil_iff, hne, h, hsum]
  · rw [agentsOverTime, cumSum_eq_nil_iff, hnil]
  · intro fmt pt
    have hmap : (agentsOverTimeRecharts fmt pt agents).map (fun e => e.2.2)
        = runningTotals 0 (((agentsByDate fmt agents).mergeSort (dateKeyLe pt)).map Prod.snd) := by
      rw [agentsOverTimeRecharts, cumKey_map_cumulative]
    have hsum' : (((agentsByDate fmt agents).mergeSort (dateKeyLe pt)).map Prod.snd).sum
        = agents.length := by
      rw [mergeSort_map_sum, agentsByDate_sum]
    have hnil' : ((agentsByDate fmt agents).mergeSort (dateKeyLe pt)) = [] ↔ agents = [] := by
      rw [mergeSort_eq_nil_iff, agentsByDate_eq_nil_iff]
    rw [hmap, runningTotals_getLast?]
    by_cases h : agents = []
    · rw [if_pos (List.map_eq_nil_iff.mpr (hnil'.mpr h)), if_pos h]
    · have hne : ¬ ((agentsByDate fmt agents).mergeSort (dateKeyLe pt)) = [] :=
        fun hc => h (hnil'.mp hc)
      rw [if_neg (fun hc => hne (List.map_eq_nil_iff.mp hc)), if_neg h]
      simp only [Nat.zero_add, hsum']

/-! ### A congruence property for the stable merge sort

The JS sort comparators that involve `parseInt` or `Date.parse` can return
`NaN`; on a list all of whose elements parse, those comparators agree with a
comparator defined by a total integer key, so the sort results coincide.
The stdlib sortedness lemma needs global transitivity, which the `NaN`-aware
comparators lack, hence this congruence detour. -/

theorem merge_congr {α : Type} {le₁ le₂ : α → α → Bool} :
    ∀ (l₁ l₂ : List α), (∀ a ∈ l₁, ∀ b ∈ l₂, le₁ a b = le₂ a b) →
      List.merge l₁ l₂ le₁ = List.merge l₁ l₂ le₂
  | [], l₂, _ => by simp
  | l₁, [], _ => by simp
  | x :: xs, y :: ys, h => by
    rw [List.cons_merge_cons, List.cons_merge_cons,
        h x (List.mem_cons_self _ _) y (List.mem_cons_self _ _)]
    by_cases hc : le₂ x y = true
    · rw [if_pos hc, if_pos hc,
          merge_congr xs (y :: ys) (fun a ha b hb => h a (List.mem_cons_of_mem _ ha) b hb)]
    · rw [if_neg hc, if_neg hc,
          merge_congr (x :: xs) ys (fun a ha b hb => h a ha b (List.mem_cons_of_mem _ hb))]

theorem mergeSort_congr {α : Type} {le₁ le₂ : α → α → Bool} :
    ∀ (l : List α), (∀ a ∈ l, ∀ b ∈ l, le₁ a b = le₂ a b) →
      l.mergeSort le₁ = l.mergeSort le₂
  | [], _ => by simp
  | [a], _ => by simp
  | a :: b :: xs, h => by
    have hl1 : (List.splitInTwo ⟨a :: b :: xs, rfl⟩).1.1.length < xs.length + 1 + 1 := by
      simp [List.splitInTwo_fst]; omega
    have hl2 : (List.splitInTwo ⟨a :: b :: xs, rfl⟩).2.1.length < xs.length + 1 + 1 := by
      simp [List.splitInTwo_snd]; omega
    have happ : (List.splitInTwo ⟨a :: b :: xs, rfl⟩).1.1
        ++ (List.splitInTwo ⟨a :: b :: xs, rfl⟩).2.1 = a :: b :: xs :=
      List.splitInTwo_fst_append_splitInTwo_snd
        (⟨a :: b :: xs, rfl⟩ : { l : List α // l.length = xs.length + 1 + 1 })
    have hmem1 : ∀ x ∈ (List.splitInTwo ⟨a :: b :: xs, rfl⟩).1.1, x ∈ a :: b :: xs := by
      intro x hx
      rw [← happ]
      exact List.mem_append_left _ hx
    have hmem2 : ∀ x ∈ (List.splitInTwo ⟨a :: b :: xs, rfl⟩).2.1, x ∈ a :: b :: xs := by
      intro x hx
      rw [← happ]
      exact List.mem_append_right _ hx
    rw [List.mergeSort, List.mergeSort]
    rw [mergeSort_congr (List.splitInTwo ⟨a :: b :: xs, rfl⟩).1.1
          (fun p hp q hq => h p (hmem1 p hp) q (hmem1 q hq)),
        mergeSort_congr (List.splitInTwo ⟨a :: b :: xs, rfl⟩).2.1
          (fun p hp q hq => h p (hmem2 p hp) q (hmem2 q hq))]
    exact merge_congr _ _ (fun p hp q hq =>
      h p (hmem1 p (List.mem_mergeSort.mp hp)) q (hmem2 q (List.mem_mergeSort.mp hq)))
termination_by l => l.length

theorem mergeSort_pairwise_desc {α : Type} (l : List α) (le : α → α → Bool) (m : α → Int)
    (hle : ∀ a ∈ l, ∀ b ∈ l, le a b = descLe m a b) :
    (l.mergeSort le).Pairwise (fun a b => m b ≤ m a) := by
  rw [mergeSort_congr l hle]
  have htrans : ∀ a b c : α, descLe m a b → descLe m b c → descLe m a c := by
    intro a b c hab hbc
    simp only [descLe, decide_eq_true_eq] at *
    omega
  have htotal : ∀ a b : α, descLe m a b || descLe m b a := by
    intro a b
    simp only [descLe, Bool.or_eq_true, decide_eq_true_eq]
    omega
  have hs := List.sorted_mergeSort htrans htotal l
  exact hs.imp (fun h => by simpa [descLe] using h)

theorem mergeSort_pairwise_asc {α : Type} (l : List α) (le : α → α → Bool) (m : α → Int)
    (hle : ∀ a ∈ l, ∀ b ∈ l, le a b = ascLe m a b) :
    (l.mergeSort le).Pairwise (fun a b => m a ≤ m b) := by
  rw [mergeSort_congr l hle]
  have htrans : ∀ a b c : α, ascLe m a b → ascLe m b c → ascLe m a c := by
    intro a b c hab hbc
    simp only [ascLe, decide_eq_true_eq] at *
    omega
  have htotal : ∀ a b : α, ascLe m a b || ascLe m b a := by
    intro a b
    simp only [ascLe, Bool.or_eq_true, decide_eq_true_eq]
    omega
  have hs := List.sorted_mergeSort htrans htotal l
  exact hs.imp (fun h => by simpa [ascLe] using h)

theorem mergeSort_pair {α : Type} (le : α → α → Bool) (a b : α) :
    [a, b].mergeSort le = if le a b then [a, b] else [b, a] := by
  rw [List.mergeSort]
  simp [List.splitInTwo_fst, List.splitInTwo_snd, List.cons_merge_cons]

/-- C2 (counterexample): on a single agent whose creation timestamp is not a
parseable date, the recharts variant does not discard the agent: it produces
the one-point sequence `[("Invalid Date", 1, 1)]` with final cumulative value
1 even though the number of agents with a parseable timestamp is 0, where the
claim requires an empty sequence.  (The Tremor variant does produce `[]`.) -/
theorem claim_C2_counterexample :
    agentsOverTimeRecharts fmtInvalid ptInvalid [badAgent] = [("Invalid Date", 1, 1)]
    ∧ [badAgent].countP (fun a => (jsDateInvalid a.created_at).isSome) = 0
    ∧ agentsOverTime jsDateInvalid [badAgent] = [] := by
  refine ⟨?_, by decide, ?_⟩
  · simp [agentsOverTimeRecharts, agentsByDate, fmtInvalid, ptInvalid, badAgent,
      bumpKey, cumKey]
  · simp [agentsOverTime, dayBuckets, jsDateInvalid, cumSum]

theorem cumSum_map_count (acc : Nat) (l : List DayBucket) :
    (cumSum acc l).map GrowthPoint.count = l.map DayBucket.count := by
  induction l generalizing acc with
  | nil => simp [cumSum]
  | cons e rest ih => simp [cumSum, ih]

theorem cumKey_map_key (acc : Nat) (l : List (String × Nat)) :
    (cumKey acc l).map (fun e => e.1) = l.map Prod.fst := by
  induction l generalizing acc with
  | nil => simp [cumKey]
  | cons e rest ih => simp [cumKey, ih]

/-- C7 (amended): in the Tremor variant the ISO day keys of the
agents-over-time output are sorted in non-decreasing string (codepoint)
order — lexicographic order, which is chronological for ISO day keys across
months and years — and the cumulative field is the running sum of the count
field across the sorted days.  In the recharts variant the keys are
locale-formatted month-day labels without a year; when every reconstructed
`"<label> 2026"` string parses, the output is ordered by those re-parsed
fixed-year timestamps, which is not chronological for agents from different
years. -/
theorem claim_C7_day_key_order (jsDate : String → Option (String × String))
    (agents : List Agent) :
    ((agentsOverTime jsDate agents).map GrowthPoint.key).Pairwise (· ≤ ·)
    ∧ (agentsOverTime jsDate agents).map GrowthPoint.cumulative
        = runningTotals 0 ((agentsOverTime jsDate agents).map GrowthPoint.count)
    ∧ ∀ (fmt : String → String) (pt : String → Option Int),
        (∀ k ∈ (agentsByDate fmt agents).map Prod.fst, (pt (k ++ " 2026")).isSome) →
        ((agentsOverTimeRecharts fmt pt agents).map (fun e => e.1)).Pairwise
          (fun k₁ k₂ => (pt (k₁ ++ " 2026")).getD 0 ≤ (pt (k₂ ++ " 2026")).getD 0) := by
  refine ⟨?_, ?_, ?_⟩
  · rw [agentsOverTime, cumSum_map_key, List.pairwise_map]
    have htrans : ∀ a b c : DayBucket, dayKeyLe a b → dayKeyLe b c → dayKeyLe a c := by
      intro a b c hab hbc
      simp only [dayKeyLe, decide_eq_true_eq] at *
      exact le_trans hab hbc
    have htotal : ∀ a b : DayBucket, dayKeyLe a b || dayKeyLe b a := by
      intro a b
      simp only [dayKeyLe, Bool.or_eq_true, decide_eq_true_eq]
      exact le_total a.key b.key
    have hs := List.sorted_mergeSort htrans htotal (dayBuckets jsDate agents)
    exact hs.imp (fun h => by simpa [dayKeyLe] using h)
  · rw [agentsOverTime, cumSum_map_cumulative, cumSum_map_count]
  · intro fmt pt hparse
    rw [agentsOverTimeRecharts, cumKey_map_key, List.pairwise_map]
    have hp : ∀ e ∈ agentsByDate fmt agents, ∃ x, pt (e.1 ++ " 2026") = some x := by
      intro e he
      have := hparse e.1 (List.mem_map_of_mem Prod.fst he)
      exact Option.isSome_iff_exists.mp this
    have := mergeSort_pairwise_asc (agentsByDate fmt agents) (dateKeyLe pt)
      (fun e => (pt (e.1 ++ " 2026")).getD 0) ?_
    · exact this
    · intro a ha b hb
      obtain ⟨x, hx⟩ := hp a ha
      obtain ⟨y, hy⟩ := hp b hb
      simp [dateKeyLe, ascLe, hx, hy]

/-- C7 (counterexample): with one agent created on 2025-12-31 and one on
2026-01-01, the recharts variant formats the day keys without a year
(`"Dec 31"`, `"Jan 1"`) and orders them by re-parsing with the fixed year
2026, producing `["Jan 1", "Dec 31"]`: the key sequence is not sorted
lexicographically, the keys are not ISO date strings, and the bucket of the
chronologically earlier agent (December 2025) comes second. -/
theorem claim_C7_counterexample :
    (agentsOverTimeRecharts fmtYearless ptYear2026 [agentDec, agentJan]).map (fun e => e.1)
      = ["Jan 1", "Dec 31"]
    ∧ ¬ ((agentsOverTimeRecharts fmtYearless ptYear2026 [agentDec, agentJan]).map
          (fun e => e.1)).Pairwise (fun k₁ k₂ : String => k₁ ≤ k₂) := by
  have hout : agentsOverTimeRecharts fmtYearless ptYear2026 [agentDec, agentJan]
      = [("Jan 1", 1, 1), ("Dec 31", 1, 2)] := by
    have htally : agentsByDate fmtYearless [agentDec, agentJan]
        = [("Dec 31", 1), ("Jan 1", 1)] := by
      simp [agentsByDate, fmtYearless, agentDec, agentJan, bumpKey]
    rw [agentsOverTimeRecharts, htally, mergeSort_pair]
    norm_num [dateKeyLe, ptYear2026, cumKey]
  rw [hout]
  refine ⟨by simp, ?_⟩
  intro hpw
  have := List.rel_of_pairwise_cons (by simpa using hpw) (List.mem_singleton_self _)
  revert this
  decide

theorem claim_C7_witness :
    (∀ k ∈ (agentsByDate fmtYearless [agentDec, agentJan]).map Prod.fst,
        (ptYear2026 (k ++ " 2026")).isSome)
    ∧ ((agentsOverTimeRecharts fmtYearless ptYear2026 [agentDec, agentJan]).map
          (fun e => e.1)).Pairwise
        (fun k₁ k₂ => (ptYear2026 (k₁ ++ " 2026")).getD 0
          ≤ (ptYear2026 (k₂ ++ " 2026")).getD 0) :=
  ⟨by decide,
   (claim_C7_day_key_order (fun _ => none) [agentDec, agentJan]).2.2
     fmtYearless ptYear2026 (by decide)⟩

/-! ### Leaderboard theorems -/

/-- C3: for every balance parser, sort key and agent list (with every
balance parseable when ranking by balance, as the claim's "parsed as
integer" presupposes), the leaderboard has exactly `min 10 n` entries, its
entries are a sub-permutation of the agent list, and they are ordered by
non-increasing metric of the selected key; in particular sorting by jobs
with agents A (completed = 5) and B (completed = 9) yields `[B, A]`. -/
theorem claim_C3_leaderboard (parse : String → Option Int) (k : SortKey)
    (agents : List Agent)
    (hbal : k = SortKey.balance →
      ∀ a ∈ agents, (parse (jsOr a.onChainBalance "0")).isSome = true) :
    (topAgents parse k agents).length = min 10 agents.length
    ∧ List.Subperm (topAgents parse k agents) agents
    ∧ (topAgents parse k agents).Pairwise
        (fun a b => sortMetric parse k b ≤ sortMetric parse k a)
    ∧ topAgents parse SortKey.jobs [agentA, agentB] = [agentB, agentA] := by
  refine ⟨?_, ?_, ?_, ?_⟩
  · rw [topAgents, List.length_take, List.length_mergeSort]
  · exact ((List.take_sublist 10 _).subperm).trans (List.mergeSort_perm agents _).subperm
  · have hpw : (agents.mergeSort (leaderLe parse k)).Pairwise
        (fun a b => sortMetric parse k b ≤ sortMetric parse k a) := by
      cases k with
      | jobs =>
        exact mergeSort_pairwise_desc agents _ (fun a => a.jobs_completed)
          (fun a _ b _ => rfl)
      | reputation =>
        exact mergeSort_pairwise_desc agents _ (fun a => a.reputation)
          (fun a _ b _ => rfl)
      | balance =>
        refine mergeSort_pairwise_desc agents _
          (fun a => (parse (jsOr a.onChainBalance "0")).getD 0) ?_
        intro a ha b hb
        obtain ⟨x, hx⟩ := Option.isSome_iff_exists.mp (hbal rfl a ha)
        obtain ⟨y, hy⟩ := Option.isSome_iff_exists.mp (hbal rfl b hb)
        simp [leaderLe, descLe, hx, hy]
    exact hpw.sublist (List.take_sublist 10 _)
  · rw [topAgents, mergeSort_pair]
    norm_num [leaderLe, agentA, agentB]

theorem claim_C3_witness :
    (SortKey.balance = SortKey.balance →
      ∀ a ∈ [agentA, agentB], (jsParseInt (jsOr a.onChainBalance "0")).isSome = true)
    ∧ ((topAgents jsParseInt SortKey.balance [agentA, agentB]).length
          = min 10 ([agentA, agentB] : List Agent).length
      ∧ List.Subperm (topAgents jsParseInt SortKey.balance [agentA, agentB]) [agentA, agentB]
      ∧ (topAgents jsParseInt SortKey.balance [agentA, agentB]).Pairwise
          (fun a b => sortMetric jsParseInt SortKey.balance b
            ≤ sortMetric jsParseInt SortKey.balance a)
      ∧ topAgents jsParseInt SortKey.jobs [agentA, agentB] = [agentB, agentA]) :=
  ⟨by decide, claim_C3_leaderboard jsParseInt SortKey.balance [agentA, agentB] (by decide)⟩

/-- C4 (counterexample): `parseInt("abc")` is `NaN`, not 0.  With agents
X (balance `"abc"`) and Y (balance `"5"`) in the order `[X, Y]`, the code
leaves X first (the `NaN` comparator result keeps the pair in input order),
whereas treating a non-numeric balance as 0 would rank Y (5) above X (0),
as the spec-modelled parser shows. -/
theorem claim_C4_counterexample :
    jsParseInt "abc" = none
    ∧ topAgents jsParseInt SortKey.balance [agentX, agentY] = [agentX, agentY]
    ∧ topAgents specBalanceParse SortKey.balance [agentX, agentY] = [agentY, agentX] := by
  refine ⟨by decide, ?_, ?_⟩
  · rw [topAgents, mergeSort_pair]
    decide
  · rw [topAgents, mergeSort_pair]
    decide

/-- C4 (amended): an agent whose `onChainBalance` is the empty string is
ranked with balance 0 (the `|| '0'` default applies and `parseInt("0")` is
0); an agent whose balance is a wholly non-numeric string parses to `NaN`,
and the comparator then treats it as tied with every other agent, leaving
the compared pair in input order rather than ranking it as balance 0. -/
theorem claim_C4_balance_parsing :
    (∀ a : Agent, a.onChainBalance = "" → jsParseInt (jsOr a.onChainBalance "0") = some 0)
    ∧ (∀ (parse : String → Option Int) (a b : Agent),
        parse (jsOr a.onChainBalance "0") = none →
          leaderLe parse SortKey.balance a b = true
          ∧ leaderLe parse SortKey.balance b a = true) := by
  constructor
  · intro a h
    rw [h]
    decide
  · intro parse a b h
    constructor
    · simp [leaderLe, h]
    · cases hb : parse (jsOr b.onChainBalance "0") <;> simp [leaderLe, h, hb]

theorem claim_C4_witness :
    (agentE.onChainBalance = ""
      ∧ jsParseInt (jsOr agentE.onChainBalance "0") = some 0)
    ∧ (jsParseInt (jsOr agentX.onChainBalance "0") = none
      ∧ leaderLe jsParseInt SortKey.balance agentX agentY = true
      ∧ leaderLe jsParseInt SortKey.balance agentY agentX = true) :=
  ⟨⟨rfl, claim_C4_balance_parsing.1 agentE rfl⟩,
   by decide,
   (claim_C4_balance_parsing.2 jsParseInt agentX agentY (by decide)).1,
   (claim_C4_balance_parsing.2 jsParseInt agentX agentY (by decide)).2⟩

/-! ### Tally counting lemmas -/

theorem keyCount_cons (e : String × Nat) (rest : List (String × Nat)) (k : String) :
    keyCount (e :: rest) k = if e.1 = k then e.2 else keyCount rest k := by
  by_cases h : e.1 = k
  · simp [keyCount, List.find?, h]
  · have hb : (e.1 == k) = false := beq_eq_false_iff_ne.mpr h
    simp [keyCount, List.find?, hb, h]

theorem keyCount_bumpKey (acc : List (String × Nat)) (k k' : String) :
    keyCount (bumpKey acc k) k' = if k' = k then keyCount acc k' + 1 else keyCount acc k' := by
  induction acc with
  | nil =>
    simp only [bumpKey]
    rw [keyCount_cons]
    by_cases h : k' = k
    · simp [keyCount, h]
    · have h' : ¬ k = k' := fun hc => h hc.symm
      simp [keyCount, h, h']
  | cons e rest ih =>
    by_cases he : e.1 = k
    · simp only [bumpKey, if_pos he]
      rw [keyCount_cons, keyCount_cons]
      by_cases hk : e.1 = k'
      · have hkk : k' = k := by rw [← hk, he]
        simp [hk, hkk]
      · have hkk : ¬ k' = k := fun hc => hk (by rw [he, hc])
        simp [hk, hkk]
    · simp only [bumpKey, if_neg he]
      rw [keyCount_cons, keyCount_cons, ih]
      by_cases hk : e.1 = k'
      · have hkk : ¬ k' = k := fun hc => he (by rw [hk, hc])
        simp [hk, hkk]
      · simp [hk]

theorem keyCount_fold {α : Type} (f : α → String) (l : List α)
    (acc : List (String × Nat)) (k : String) :
    keyCount (l.foldl (fun acc x => bumpKey acc (f x)) acc) k
      = keyCount acc k + l.countP (fun x => decide (f x = k)) := by
  induction l generalizing acc with
  | nil => simp
  | cons x rest ih =>
    rw [List.foldl_cons, ih, keyCount_bumpKey, List.countP_cons]
    by_cases h : f x = k
    · simp [h]
      omega
    · have h' : ¬ k = f x := fun hc => h hc.symm
      simp [h, h']

theorem bumpKey_keys (acc : List (String × Nat)) (k : String) :
    (bumpKey acc k).map Prod.fst
      = if k ∈ acc.map Prod.fst then acc.map Prod.fst else acc.map Prod.fst ++ [k] := by
  induction acc with
  | nil => simp [bumpKey]
  | cons e rest ih =>
    by_cases he : e.1 = k
    · simp [bumpKey, he]
    · have : ¬ k = e.1 := fun hc => he hc.symm
      by_cases hm : k ∈ rest.map Prod.fst <;> simp [bumpKey, he, this, hm, ih]

theorem bumpKey_keys_nodup (acc : List (String × Nat)) (k : String)
    (h : (acc.map Prod.fst).Nodup) : ((bumpKey acc k).map Prod.fst).Nodup := by
  rw [bumpKey_keys]
  by_cases hm : k ∈ acc.map Prod.fst
  · simpa [hm] using h
  · simp only [if_neg hm]
    refine List.Nodup.append h (List.nodup_singleton k) ?_
    intro x hx hxk
    rw [List.mem_singleton] at hxk
    subst hxk
    exact hm hx

theorem keyTally_fold_nodup {α : Type} (f : α → String) (l : List α)
    (acc : List (String × Nat)) (hacc : (acc.map Prod.fst).Nodup) :
    ((l.foldl (fun acc x => bumpKey acc (f x)) acc).map Prod.fst).Nodup := by
  induction l generalizing acc with
  | nil => simpa using hacc
  | cons x rest ih =>
    rw [List.foldl_cons]
    exact ih _ (bumpKey_keys_nodup acc _ hacc)

theorem mem_keyCount (acc : List (String × Nat)) (p : String × Nat)
    (hnd : (acc.map Prod.fst).Nodup) (hp : p ∈ acc) : p.2 = keyCount acc p.1 := by
  induction acc with
  | nil => simp at hp
  | cons e rest ih =>
    rcases List.mem_cons.mp hp with hpe | hpr
    · subst hpe
      simp [keyCount, List.find?]
    · have hne : e.1 ≠ p.1 := by
        have h1 : p.1 ∈ rest.map Prod.fst := List.mem_map_of_mem Prod.fst hpr
        have h2 := (List.nodup_cons.mp hnd).1
        exact fun hc => h2 (hc ▸ h1)
      have : (e.1 == p.1) = false := by simpa [beq_iff_eq] using hne
      simp only [keyCount, List.find?, this]
      exact ih (List.nodup_cons.mp hnd).2 hpr

theorem jobsByType_count (jobs : List Job) :
    ∀ p ∈ jobsByType jobs, p.2 = jobs.countP (fun j => decide (effType j = p.1)) := by
  intro p hp
  have hnd : ((jobsByType jobs).map Prod.fst).Nodup :=
    keyTally_fold_nodup effType jobs [] (by simp)
  rw [mem_keyCount (jobsByType jobs) p hnd hp]
  rw [jobsByType, keyCount_fold]
  simp [keyCount]

/-- C5 (amended): in the Tremor variant, `jobTypeData` groups jobs by their
type (missing or empty type counted under `"general"`), each entry's count
is the number of jobs of that entry's type, the entries are sorted
descending by count and only the top 6 are kept.  In the recharts variant
the same tally is rendered verbatim: all categories, in first-occurrence
order, with no sorting and no truncation. -/
theorem claim_C5_jobs_by_type (jobs : List Job) :
    (jobTypeData jobs).length = min 6 (jobsByType jobs).length
    ∧ (jobTypeData jobs).Pairwise (fun a b => b.jobs ≤ a.jobs)
    ∧ (∀ d ∈ jobTypeData jobs,
        d.jobs = jobs.countP (fun j => decide (effType j = d.fullName)))
    ∧ (∀ p ∈ jobsByType jobs, p.2 = jobs.countP (fun j => decide (effType j = p.1)))
    ∧ jobTypeDataRecharts jobs = jobsByType jobs := by
  refine ⟨?_, ?_, ?_, jobsByType_count jobs, ?_⟩
  · rw [jobTypeData, List.length_take, List.length_mergeSort, List.length_map]
  · have htrans : ∀ a b c : TypeDatum, typeCountLe a b → typeCountLe b c → typeCountLe a c := by
      intro a b c hab hbc
      simp only [typeCountLe, decide_eq_true_eq] at *
      omega
    have htotal : ∀ a b : TypeDatum, typeCountLe a b || typeCountLe b a := by
      intro a b
      simp only [typeCountLe, Bool.or_eq_true, decide_eq_true_eq]
      omega
    have hs := List.sorted_mergeSort htrans htotal
      ((jobsByType jobs).map (fun e => ⟨tickFormatter e.1 14, e.1, e.2⟩))
    exact (hs.imp (fun h => by simpa [typeCountLe] using h)).sublist (List.take_sublist 6 _)
  · intro d hd
    have hd' : d ∈ ((jobsByType jobs).map
        (fun e => (⟨tickFormatter e.1 14, e.1, e.2⟩ : TypeDatum))).mergeSort typeCountLe :=
      (List.take_sublist 6 _).mem hd
    have hd'' := List.mem_mergeSort.mp hd'
    obtain ⟨e, he, hde⟩ := List.mem_map.mp hd''
    have := jobsByType_count jobs e he
    rw [← hde]
    simpa using this
  · rw [jobTypeDataRecharts]
    simp

/-- C5 (counterexample): on seven jobs of seven distinct types the recharts
variant renders all seven categories (no top-6 truncation), and on a tally
whose first-seen type has the smaller count it renders the categories in
first-occurrence order `[("x", 1), ("y", 2)]`, not sorted descending by
count. -/
theorem claim_C5_counterexample :
    (jobTypeDataRecharts sevenJobs).length = 7
    ∧ jobTypeDataRecharts skewJobs = [("x", 1), ("y", 2)]
    ∧ ¬ ((jobTypeDataRecharts skewJobs).map Prod.snd).Pairwise
        (fun a b => b ≤ a) := by
  refine ⟨by decide, by decide, ?_⟩
  intro hpw
  have h12 : (jobTypeDataRecharts skewJobs).map Prod.snd = [1, 2] := by decide
  rw [h12] at hpw
  have := List.rel_of_pairwise_cons hpw (List.mem_singleton_self _)
  omega

theorem claim_C5_witness :
    ((⟨"alpha", "alpha", 1⟩ : TypeDatum) ∈ jobTypeData [jobAlpha])
    ∧ (⟨"alpha", "alpha", 1⟩ : TypeDatum).jobs
        = [jobAlpha].countP (fun j => decide (effType j = (⟨"alpha", "alpha", 1⟩ : TypeDatum).fullName)) := by
  have hmem : (⟨"alpha", "alpha", 1⟩ : TypeDatum) ∈ jobTypeData [jobAlpha] := by
    simp [jobTypeData, jobsByType, bumpKey, effType, jsOr, jobAlpha, mkJob, tickFormatter]
    decide
  exact ⟨hmem, (claim_C5_jobs_by_type [jobAlpha]).2.2.1 _ hmem⟩

/-! ### Activity feed theorems -/

/-- C6 (amended): in the Tremor variant the activity feed is a stable sort
of the activity items by parsed timestamp descending (whenever every
timestamp parses) truncated to the 12 most recent, and is always a
sub-permutation of the input of length `min 12 n`.  In the recharts variant
the feed is simply the first 15 items of the API-ordered list: a prefix of
the input, with no sorting by timestamp. -/
theorem claim_C6_activity_feed (pt : String → Option Int) (activity : List ActivityItem)
    (hparse : ∀ i ∈ activity, (pt i.timestamp).isSome = true) :
    (activityItems pt activity).length = min 12 activity.length
    ∧ List.Subperm (activityItems pt activity) activity
    ∧ (activityItems pt activity).Pairwise
        (fun a b => (pt b.timestamp).getD 0 ≤ (pt a.timestamp).getD 0)
    ∧ ∀ acts : List ActivityItem,
        activityFeedRecharts acts ++ acts.drop 15 = acts
        ∧ (activityFeedRecharts acts).length = min 15 acts.length := by
  refine ⟨?_, ?_, ?_, ?_⟩
  · rw [activityItems, List.length_take, List.length_mergeSort]
  · exact ((List.take_sublist 12 _).subperm).trans (List.mergeSort_perm activity _).subperm
  · have hpw := mergeSort_pairwise_desc activity (activityLe pt)
      (fun i => (pt i.timestamp).getD 0) ?_
    · exact hpw.sublist (List.take_sublist 12 _)
    · intro a ha b hb
      obtain ⟨x, hx⟩ := Option.isSome_iff_exists.mp (hparse a ha)
      obtain ⟨y, hy⟩ := Option.isSome_iff_exists.mp (hparse b hb)
      simp [activityLe, descLe, hx, hy]
  · intro acts
    exact ⟨List.take_append_drop 15 acts, by rw [activityFeedRecharts, List.length_take]⟩

/-- C6 (counterexample): with two items whose timestamps are one year apart,
in oldest-first order, the recharts variant renders them unchanged
(`slice(0, 15)` does not sort), so the rendered feed is not sorted by
timestamp descending. -/
theorem claim_C6_counterexample :
    activityFeedRecharts [actOld, actNew] = [actOld, actNew]
    ∧ ptEpoch actOld.timestamp = some 1577836800000
    ∧ ptEpoch actNew.timestamp = some 1609459200000
    ∧ ¬ ((activityFeedRecharts [actOld, actNew]).map
          (fun i => (ptEpoch i.timestamp).getD 0)).Pairwise (fun x y => y ≤ x) := by
  refine ⟨by decide, by decide, by decide, ?_⟩
  intro hpw
  have h12 : (activityFeedRecharts [actOld, actNew]).map
      (fun i => (ptEpoch i.timestamp).getD 0) = [1577836800000, 1609459200000] := by decide
  rw [h12] at hpw
  have := List.rel_of_pairwise_cons hpw (List.mem_singleton_self _)
  omega

theorem claim_C6_witness :
    (∀ i ∈ [actNew, actOld], (ptEpoch i.timestamp).isSome = true)
    ∧ ((activityItems ptEpoch [actNew, actOld]).length
          = min 12 ([actNew, actOld] : List ActivityItem).length
      ∧ List.Subperm (activityItems ptEpoch [actNew, actOld]) [actNew, actOld]
      ∧ (activityItems ptEpoch [actNew, actOld]).Pairwise
          (fun a b => (ptEpoch b.timestamp).getD 0 ≤ (ptEpoch a.timestamp).getD 0)
      ∧ ∀ acts : List ActivityItem,
          activityFeedRecharts acts ++ acts.drop 15 = acts
          ∧ (activityFeedRecharts acts).length = min 15 acts.length) :=
  ⟨by decide, claim_C6_activity_feed ptEpoch [actNew, actOld] (by decide)⟩

/-! ### State, poll-cycle and completion-rate theorems -/

/-- C8: selecting a different leaderboard sort key changes only the sort
key: every other state field — in particular the agents snapshot, in the
same order, and the other three data snapshots (so no data is re-fetched) —
is unchanged, and the leaderboard shown afterwards is the pure function
`topAgents` of the new key and the unchanged agent list. -/
theorem claim_C8_sort_key_pure (s : DashState) (k : SortKey)
    (parse : String → Option Int) :
    (setLeaderboardSort s k).agents = s.agents
    ∧ (setLeaderboardSort s k).stats = s.stats
    ∧ (setLeaderboardSort s k).jobs = s.jobs
    ∧ (setLeaderboardSort s k).activity = s.activity
    ∧ (setLeaderboardSort s k).loading = s.loading
    ∧ (setLeaderboardSort s k).error = s.error
    ∧ (setLeaderboardSort s k).leaderboardSort = k
    ∧ topAgents parse ((setLeaderboardSort s k).leaderboardSort)
        ((setLeaderboardSort s k).agents) = topAgents parse k s.agents :=
  ⟨rfl, rfl, rfl, rfl, rfl, rfl, rfl, rfl⟩

/-- C9: if any of the three fetches rejects or resolves non-2xx, the poll
cycle leaves all four data snapshots untouched and sets an error that the
component then renders: the rejection's message when a fetch rejected,
otherwise the generic `"Failed to fetch data"`. -/
theorem claim_C9_fetch_failure (s : DashState) (dash : FetchOutcome DashBody)
    (agentsRes : FetchOutcome (List Agent)) (jobsRes : FetchOutcome (List Job))
    (hfail : isFailure dash = true ∨ isFailure agentsRes = true
      ∨ isFailure jobsRes = true) :
    (fetchCycle s dash agentsRes jobsRes).stats = s.stats
    ∧ (fetchCycle s dash agentsRes jobsRes).agents = s.agents
    ∧ (fetchCycle s dash agentsRes jobsRes).jobs = s.jobs
    ∧ (fetchCycle s dash agentsRes jobsRes).activity = s.activity
    ∧ ∃ m, (fetchCycle s dash agentsRes jobsRes).error = some m
        ∧ render (fetchCycle s dash agentsRes jobsRes) = View.errorView m
        ∧ (m = "Failed to fetch data"
           ∨ dash = FetchOutcome.rejected m
           ∨ agentsRes = FetchOutcome.rejected m
           ∨ jobsRes = FetchOutcome.rejected m) := by
  cases dash with
  | rejected m =>
    exact ⟨rfl, rfl, rfl, rfl, m, rfl, rfl, Or.inr (Or.inl rfl)⟩
  | resolved ok₁ body =>
    cases agentsRes with
    | rejected m =>
      exact ⟨rfl, rfl, rfl, rfl, m, rfl, rfl, Or.inr (Or.inr (Or.inl rfl))⟩
    | resolved ok₂ ags =>
      cases jobsRes with
      | rejected m =>
        exact ⟨rfl, rfl, rfl, rfl, m, rfl, rfl, Or.inr (Or.inr (Or.inr rfl))⟩
      | resolved ok₃ jbs =>
        have hok : (ok₁ && ok₂ && ok₃) = false := by
          simp only [isFailure] at hfail
          rcases hfail with h | h | h <;> simp_all
        refine ⟨?_, ?_, ?_, ?_, "Failed to fetch data", ?_, ?_, Or.inl rfl⟩ <;>
          simp [fetchCycle, render, hok]

theorem claim_C9_witness :
    (isFailure (FetchOutcome.rejected "network down" : FetchOutcome DashBody) = true
      ∨ isFailure (FetchOutcome.resolved true ([] : List Agent)) = true
      ∨ isFailure (FetchOutcome.resolved true ([] : List Job)) = true)
    ∧ ((fetchCycle
          ⟨none, [], [], [], true, none, SortKey.jobs⟩
          (FetchOutcome.rejected "network down")
          (FetchOutcome.resolved true ([] : List Agent))
          (FetchOutcome.resolved true ([] : List Job))).stats = none
      ∧ (fetchCycle ⟨none, [], [], [], true, none, SortKey.jobs⟩
          (FetchOutcome.rejected "network down")
          (FetchOutcome.resolved true ([] : List Agent))
          (FetchOutcome.resolved true ([] : List Job))).agents = []
      ∧ (fetchCycle ⟨none, [], [], [], true, none, SortKey.jobs⟩
          (FetchOutcome.rejected "network down")
          (FetchOutcome.resolved true ([] : List Agent))
          (FetchOutcome.resolved true ([] : List Job))).jobs = []
      ∧ (fetchCycle ⟨none, [], [], [], true, none, SortKey.jobs⟩
          (FetchOutcome.rejected "network down")
          (FetchOutcome.resolved true ([] : List Agent))
          (FetchOutcome.resolved true ([] : List Job))).activity = []
      ∧ ∃ m, (fetchCycle ⟨none, [], [], [], true, none, SortKey.jobs⟩
            (FetchOutcome.rejected "network down")
            (FetchOutcome.resolved true ([] : List Agent))
            (FetchOutcome.resolved true ([] : List Job))).error = some m
          ∧ render (fetchCycle ⟨none, [], [], [], true, none, SortKey.jobs⟩
              (FetchOutcome.rejected "network down")
              (FetchOutcome.resolved true ([] : List Agent))
              (FetchOutcome.resolved true ([] : List Job))) = View.errorView m
          ∧ (m = "Failed to fetch data"
             ∨ (FetchOutcome.rejected "network down" : FetchOutcome DashBody)
                 = FetchOutcome.rejected m
             ∨ FetchOutcome.resolved true ([] : List Agent) = FetchOutcome.rejected m
             ∨ FetchOutcome.resolved true ([] : List Job) = FetchOutcome.rejected m)) :=
  ⟨Or.inl rfl,
   claim_C9_fetch_failure ⟨none, [], [], [], true, none, SortKey.jobs⟩
     (FetchOutcome.rejected "network down")
     (FetchOutcome.resolved true ([] : List Agent))
     (FetchOutcome.resolved true ([] : List Job)) (Or.inl rfl)⟩

/-- C10 (amended): in the Tremor variant the completion rate is guarded:
it is 0 whenever `totalJobs` is not positive (in particular when it is 0,
so no division by zero occurs), and equals `completedJobs / totalJobs × 100`
otherwise.  In the recharts variant there is no guard: with `totalJobs = 0`
(and hence `completedJobs = 0`, by the spec invariant
`completedJobs ≤ totalJobs` and non-negativity) the computation divides
zero by zero and the displayed value is `NaN`. -/
theorem claim_C10_completion_rate :
    (∀ stats : Option DashboardStats,
        ((stats.map DashboardStats.totalJobs).getD 0 ≤ 0 →
          completionRateValue stats = JSNum.num 0)
        ∧ (0 < (stats.map DashboardStats.totalJobs).getD 0 →
          completionRateValue stats
            = JSNum.num ((((stats.map DashboardStats.completedJobs).getD 0 : Int) : ℚ)
                / (((stats.map DashboardStats.totalJobs).getD 0 : Int) : ℚ) * 100)))
    ∧ (∀ st : DashboardStats, st.totalJobs = 0 → st.completedJobs = 0 →
        completionRateRecharts st = JSNum.nan) := by
  constructor
  · intro stats
    constructor
    · intro h
      rw [completionRateValue, if_neg (by omega)]
    · intro h
      rw [completionRateValue, if_pos h]
      have hne : (((stats.map DashboardStats.totalJobs).getD 0 : Int) : ℚ) ≠ 0 := by
        exact_mod_cast (by omega : ((stats.map DashboardStats.totalJobs).getD 0 : Int) ≠ 0)
      simp [jsDiv, jsMul, hne]
  · intro st h1 h2
    rw [completionRateRecharts, h1, h2]
    simp [jsDiv, jsMul]

/-- C10 (counterexample): on a stats snapshot with `totalJobs = 0` the
recharts variant's completion rate is `NaN`, not the 0 the claim requires
(the Tremor variant's guarded computation does yield 0 there). -/
theorem claim_C10_counterexample :
    completionRateRecharts statsZero = JSNum.nan
    ∧ JSNum.nan ≠ JSNum.num 0
    ∧ completionRateValue (some statsZero) = JSNum.num 0 := by
  refine ⟨by decide, by decide, by decide⟩

theorem claim_C10_witness :
    ((0 < ((some statsPos).map DashboardStats.totalJobs).getD 0)
      ∧ completionRateValue (some statsPos)
          = JSNum.num (((((some statsPos).map DashboardStats.completedJobs).getD 0 : Int) : ℚ)
              / ((((some statsPos).map DashboardStats.totalJobs).getD 0 : Int) : ℚ) * 100))
    ∧ (statsZero.totalJobs = 0 ∧ statsZero.completedJobs = 0
      ∧ completionRateRecharts statsZero = JSNum.nan) := by
  refine ⟨⟨by decide, ?_⟩, rfl, rfl, claim_C10_completion_rate.2 statsZero rfl rfl⟩
  exact (claim_C10_completion_rate.1 (some statsPos)).2 (by decide)

end Openwork
